import Mathlib

set_option autoImplicit false

/-!
Verification of the flaczkownia-dedup core: the dedup engine
(`dedup.py:process_path` and its helpers), the job queue consumer loop
(`dedup.py:main` together with the `Queue` model of `lib/sqlmodels.py`),
and the view reconciler (`connector.py:_create_symlink`).

The Python code is shallowly embedded: the record store session becomes an
explicit `DB` value, the filesystem and the external classifiers
(`puremagic`, `mediafile.MediaFile`, `_audioprint_resampled`) become an
oracle `FS` assigning to each path the outcomes the real collaborators
would produce, and a per-file step returns the new store state together
with the trace of commits and webhook notifications it performs.  A step
that lets a Python exception escape (the unguarded fingerprint call)
returns `none`.
-/

namespace Flaczkownia

/-! ## Data model (`lib/sqlmodels.py`) -/

/-- The `JobStatus` enum of `lib/sqlmodels.py`. -/
inductive JobStatus where
  | PENDING
  | PROCESSING
  | DONE
  | FAILED
deriving DecidableEq, Repr

/-- A row of the `queue` table.  Timestamps are abstracted to naturals. -/
structure Job where
  id : Nat
  path : String
  status : JobStatus
  created_at : Nat
  updated_at : Nat
deriving DecidableEq, Repr

/-- The tag fields `process_path` reads off a successfully opened
`MediaFile` (`mf.album`, `mf.mb_albumid`, `mf.disc`, `mf.track`, and the
`mf.title` / `mf.artist` / `mf.year` used for the webhook payload).
Missing tags are `none`. -/
structure MediaTags where
  album : Option String
  mb_albumid : Option String
  disc : Option Int
  track : Option Int
  title : Option String
  artist : Option String
  year : Option Int
deriving DecidableEq, Repr

/-- A row of the `tracks` table. -/
structure Track where
  path : String
  acoustic_fingerprint : Int
  album : Option String
  mb_albumid : Option String
  disc_number : Option Int
  track_number : Option Int
  duplicate : Bool
deriving DecidableEq, Repr

/-- A row of the `unknown_files` table. -/
structure UnknownFile where
  path : String
deriving DecidableEq, Repr

/-- The record store state seen through the SQLAlchemy session: the two
tables `process_path` reads and writes.  Inserts append. -/
structure DB where
  tracks : List Track
  unknownFiles : List UnknownFile
deriving DecidableEq, Repr

def emptyDB : DB := ⟨[], []⟩

/-! ## External collaborators as per-path oracles -/

/-- What the external classifiers would report for one file:
* `isAudio` — `puremagic.magic_file` succeeds (no `ValueError` or
  `PureError`) and some returned mime type starts with `audio/`;
* `media` — `some tags` if `MediaFile(file)` succeeds, `none` if it
  raises `mediafile.FileTypeError`;
* `fingerprint` — `some fp` if `_audioprint_resampled(file)` returns
  `fp`, `none` if it raises;
* `metaOk` — whether building the webhook metadata dict from the tags
  succeeds (the bare `try`/`except` around the payload assembly). -/
structure FileInfo where
  isAudio : Bool
  media : Option MediaTags
  fingerprint : Option Int
  metaOk : Bool

/-- The filesystem together with the classifier oracles. -/
structure FS where
  pathExists : String → Bool
  isDir : String → Bool
  dirFiles : String → List String
  info : String → FileInfo

/-- Function `_recursive_path_walk` of `dedup.py`: nothing for a nonexistent
path, the recursive `os.walk` file listing for a directory, the path
itself otherwise. -/
def recursive_path_walk (fs : FS) (path : String) : List String :=
  if fs.pathExists path = false then []
  else if fs.isDir path then fs.dirFiles path
  else [path]

/-! ## Events and webhooks -/

/-- The `metadata` dict of the webhook payload. -/
structure MetaPayload where
  album : Option String
  title : Option String
  artist : Option String
  year : Option Int
deriving DecidableEq, Repr

inductive EventType where
  | new
  | duplicate
  | unknown
deriving DecidableEq, Repr

/-- A webhook payload built by `process_path`. -/
structure Event where
  path : String
  type : EventType
  audioprint : Option String
  metadata : Option MetaPayload
deriving DecidableEq, Repr

/-- One `httpx.post` issued by `_send_webhook`. -/
structure WebhookAttempt where
  url : String
  delivered : Bool
deriving DecidableEq, Repr

/-- Function `_send_webhook` of `dedup.py`: one post per configured url, each
wrapped in its own `try`/`except` (a failed post is logged and the loop
continues), so every url is attempted exactly once whatever happens to
the others.  `fails` is the network oracle saying which posts raise. -/
def send_webhook (fails : String → Bool) (urls : List String) : List WebhookAttempt :=
  urls.map (fun u => ⟨u, !(fails u)⟩)

/-- Observable steps of the per-file loop body, in program order: the
committed insert(s) followed by the `_send_webhook` call. -/
inductive Action where
  | commitUnknown (u : UnknownFile)
  | commitTrack (t : Track)
  | notify (ev : Event)
deriving DecidableEq, Repr

/-! ## The dedup engine (`dedup.py:process_path`) -/

/-- The step-1 existence check: a `Track` or `UnknownFile` row with this
path already exists. -/
def hasRecord (db : DB) (p : String) : Bool :=
  (db.tracks.any (fun t => t.path == p)) || (db.unknownFiles.any (fun u => u.path == p))

/-- The predicate of the `session.query(Track).filter_by(...)` existence
lookup in `process_path`: exact equality on the identity tuple.  Note
the query has no condition on `duplicate`. -/
def tupleMatch (fp : Int) (mf : MediaTags) (t : Track) : Bool :=
  t.acoustic_fingerprint == fp && t.album == mf.album && t.mb_albumid == mf.mb_albumid
    && t.disc_number == mf.disc && t.track_number == mf.track

/-- The existence lookup of `process_path` (its `existing` query). -/
def findExisting (db : DB) (fp : Int) (mf : MediaTags) : Option Track :=
  db.tracks.find? (tupleMatch fp mf)

/-- Modelled from the spec: the lookup as the specification words it,
"an existing non-duplicate Track whose (fingerprint, album, album_id,
disc, track) tuple exactly matches" — i.e. the same tuple lookup further
restricted to rows with `duplicate = false`.  Kept for comparison with
`findExisting`, which is translated from the code. -/
def specLookupNonDuplicate (db : DB) (fp : Int) (mf : MediaTags) : Option Track :=
  db.tracks.find? (fun t => t.duplicate == false && tupleMatch fp mf t)

def unknownEvent (p : String) : Event :=
  { path := p, type := .unknown, audioprint := none, metadata := none }

def trackEvent (p : String) (fp : Int) (mf : MediaTags) (isDup : Bool) (metaOk : Bool) : Event :=
  { path := p
    type := if isDup then .duplicate else .new
    audioprint := some (toString fp)
    metadata := if metaOk then some ⟨mf.album, mf.title, mf.artist, mf.year⟩ else none }

/-- The body of the per-file loop of `process_path`, for one file:
1. skip if already indexed (no commit, no event);
2. if `puremagic` reports no audio mime (or raises), insert an
   `UnknownFile`, commit, send the `unknown` webhook;
3. if `MediaFile` raises `FileTypeError`, likewise insert an
   `UnknownFile`, commit, send the `unknown` webhook;
4. fingerprint the file — this call is not wrapped in any `try`, so a
   fingerprinting error propagates out of the loop (`none`);
5. otherwise run the existence lookup, insert the `Track` with
   `duplicate = (existing is not None)`, commit, and send the
   `new`/`duplicate` webhook whose metadata degrades to `None` if the
   payload assembly fails. -/
def processFile (fs : FS) (db : DB) (file : String) : Option (DB × List Action) :=
  if hasRecord db file then
    some (db, [])
  else if (fs.info file).isAudio = false then
    some ({ db with unknownFiles := db.unknownFiles ++ [⟨file⟩] },
      [.commitUnknown ⟨file⟩, .notify (unknownEvent file)])
  else
    match (fs.info file).media with
    | none =>
        some ({ db with unknownFiles := db.unknownFiles ++ [⟨file⟩] },
          [.commitUnknown ⟨file⟩, .notify (unknownEvent file)])
    | some mf =>
        match (fs.info file).fingerprint with
        | none => none
        | some fp =>
            some ({ db with tracks := db.tracks ++
                [{ path := file, acoustic_fingerprint := fp, album := mf.album,
                   mb_albumid := mf.mb_albumid, disc_number := mf.disc,
                   track_number := mf.track,
                   duplicate := (findExisting db fp mf).isSome }] },
              [.commitTrack
                { path := file, acoustic_fingerprint := fp, album := mf.album,
                  mb_albumid := mf.mb_albumid, disc_number := mf.disc,
                  track_number := mf.track,
                  duplicate := (findExisting db fp mf).isSome },
               .notify (trackEvent file fp mf (findExisting db fp mf).isSome
                 (fs.info file).metaOk)])

/-- Result of running the loop over a file list: the final store state,
the concatenated action trace, and whether the loop ran to completion
(`ok = false` when an exception escaped, in which case the remaining
files were never visited but the commits already made stand). -/
structure RunResult where
  db : DB
  actions : List Action
  ok : Bool
deriving DecidableEq, Repr

def processFiles (fs : FS) (db : DB) : List String → RunResult
  | [] => ⟨db, [], true⟩
  | f :: rest =>
    match processFile fs db f with
    | none => ⟨db, [], false⟩
    | some (db2, acts) =>
        ⟨(processFiles fs db2 rest).db, acts ++ (processFiles fs db2 rest).actions,
         (processFiles fs db2 rest).ok⟩

/-- Function `process_path` of `dedup.py`. -/
def process_path (fs : FS) (db : DB) (path : String) : RunResult :=
  processFiles fs db (recursive_path_walk fs path)

/-! ## The job queue consumer (`dedup.py:main`, `lib/sqlmodels.py:Queue`) -/

/-- The `queue` table. -/
structure QueueDB where
  jobs : List Job
deriving DecidableEq, Repr

/-- Smallest `created_at` wins; on a tie the earlier row is kept
(`ORDER BY created_at` leaves ties unordered, the embedding fixes list
order). -/
def minByCreated : List Job → Option Job
  | [] => none
  | j :: rest =>
    match minByCreated rest with
    | none => some j
    | some b => if j.created_at ≤ b.created_at then some j else some b

/-- The job selection of the consumer loop:
`session.query(Queue).filter_by(status=PENDING).order_by(created_at).first()`. -/
def selectOldestPending (q : QueueDB) : Option Job :=
  minByCreated (q.jobs.filter (fun j => j.status == JobStatus.PENDING))

/-- The `WHERE` clause of the conditional claim update:
`Queue.id == job.id AND Queue.status == PENDING`. -/
def claimHit (jid : Nat) (j : Job) : Bool :=
  j.id == jid && j.status == JobStatus.PENDING

/-- The claim step of the consumer loop: the single conditional
`UPDATE queue SET status = PROCESSING WHERE id = ? AND status = PENDING`,
returning the affected row count together with the new table state. -/
def claimUpdate (q : QueueDB) (jid : Nat) : Nat × QueueDB :=
  ( (q.jobs.filter (claimHit jid)).length
  , ⟨q.jobs.map (fun j => if claimHit jid j then { j with status := .PROCESSING } else j)⟩ )

/-- Here `n` workers racing on the same job: since the store executes each
conditional update as one indivisible operation, any interleaving is a
sequence of `claimUpdate` steps; this folds them and collects the row
counts each claimer observes. -/
def claimAttempts (q : QueueDB) (jid : Nat) : Nat → List Nat × QueueDB
  | 0 => ([], q)
  | n + 1 =>
    let s := claimUpdate q jid
    let r := claimAttempts s.2 jid n
    (s.1 :: r.1, r.2)

/-- Method `Queue.update_status` of `lib/sqlmodels.py`: unconditionally assigns
the status, refreshes `updated_at`, and commits. -/
def update_status (j : Job) (st : JobStatus) (now : Nat) : Job :=
  { j with status := st, updated_at := now }

/-- Job completion as the worker loop of `dedup.py:main` actually
performs it: `job.status = DONE` (or `FAILED`) followed by
`session.commit()` — `updated_at` is not touched and `update_status` is
never called. -/
def completeJob (j : Job) (st : JobStatus) : Job :=
  { j with status := st }

/-! ## The view reconciler (`connector.py:_create_symlink`) -/

/-- Python's `"../" * n`. -/
def repeatUp : Nat → String
  | 0 => ""
  | n + 1 => "../" ++ repeatUp n

/-- A relative store location is its list of path components
(`Path(db_path).relative_to(db_prefix)`); rendering joins them with
`/` as `str(PurePosixPath)` does. -/
def renderRel (rel : List String) : String :=
  String.intercalate "/" rel

/-- The symlink target computed by `_create_symlink`:
`depth = len(rel_path.parent.parts)` then
`f"{up_prefix}{source_relative_path}/{rel_path}"`. -/
def symlinkTarget (rel : List String) (sourceRel : String) : String :=
  repeatUp rel.dropLast.length ++ sourceRel ++ "/" ++ renderRel rel

/-- Modelled from the spec: the target as the specification words it,
`("../" × depth(rel)) + source_relative_path + "/" + rel` with
`depth(rel)` the number of directory components of the parent of `rel`,
i.e. one less than the component count.  Kept for comparison with
`symlinkTarget`, which is translated from the code. -/
def specSymlinkTarget (rel : List String) (sourceRel : String) : String :=
  repeatUp (rel.length - 1) ++ sourceRel ++ "/" ++ renderRel rel

/-- A POSIX path is absolute exactly when it starts with a slash. -/
def isAbsolutePath (s : String) : Bool :=
  match s.data with
  | [] => false
  | c :: _ => c == '/'

/-- What sits at a view-tree location. -/
inductive FsEntry where
  | absent
  | symlinkTo (target : String)
  | realFile
deriving DecidableEq, Repr

/-- The location `view_dir / rel_path` of the symlink. -/
def linkPath (viewDir : String) (rel : List String) : String :=
  viewDir ++ "/" ++ renderRel rel

/-- Function `_create_symlink` of `connector.py`, after the relative-location
computation: if the location holds a symlink with the expected target,
leave everything alone; if it holds a symlink with a different target,
unlink it and create the expected one; if it holds anything else that
exists, warn and return without touching it; if it is absent, create
the symlink (`mkdir -p` of the parent is implicit in the map). -/
def create_symlink (view : String → FsEntry) (viewDir : String) (rel : List String)
    (sourceRel : String) : String → FsEntry :=
  match view (linkPath viewDir rel) with
  | .symlinkTo cur =>
      if cur = symlinkTarget rel sourceRel then view
      else fun p => if p = linkPath viewDir rel
        then .symlinkTo (symlinkTarget rel sourceRel) else view p
  | .realFile => view
  | .absent => fun p => if p = linkPath viewDir rel
      then .symlinkTo (symlinkTarget rel sourceRel) else view p

/-! ## Concrete fixtures for the closed theorems -/

def mfX : MediaTags := ⟨some "X", none, some 1, some 1, some "T", some "A", some 2020⟩

def emptyInfo : FileInfo := ⟨false, none, none, false⟩

/-- A filesystem on which nothing exists. -/
def absentFS : FS := ⟨fun _ => false, fun _ => false, fun _ => [], fun _ => emptyInfo⟩

/-- A directory `/in` with two audio files; fingerprinting `a.flac`
raises, `b.flac` is healthy. -/
def fpFailFS : FS :=
  { pathExists := fun p => p == "/in" || p == "/in/a.flac" || p == "/in/b.flac"
    isDir := fun p => p == "/in"
    dirFiles := fun p => if p == "/in" then ["/in/a.flac", "/in/b.flac"] else []
    info := fun p =>
      if p == "/in/a.flac" then ⟨true, some mfX, none, true⟩
      else ⟨true, some mfX, some 9, true⟩ }

def dupOnlyTrack : Track := ⟨"/store/old.flac", 7, some "X", none, some 1, some 1, true⟩

/-- A store whose only track matching the tuple is flagged duplicate. -/
def dupOnlyDB : DB := ⟨[dupOnlyTrack], []⟩

/-- A single healthy audio file whose tuple matches `dupOnlyTrack`. -/
def audioFS7 : FS :=
  ⟨fun p => p == "/in/new.flac", fun _ => false, fun _ => [],
   fun _ => ⟨true, some mfX, some 7, true⟩⟩

/-- A single audio file on which `MediaFile` raises `FileTypeError`
although fingerprinting would succeed. -/
def ftErrFS : FS :=
  ⟨fun p => p == "/in/tagless.flac", fun _ => false, fun _ => [],
   fun _ => ⟨true, none, some 7, true⟩⟩

/-- A single non-audio file. -/
def fs9 : FS :=
  ⟨fun p => p == "/w9", fun _ => false, fun _ => [], fun _ => emptyInfo⟩

def jobDone : Job := ⟨1, "/in", .DONE, 0, 0⟩

def job4b : Job := ⟨2, "/p2", .PENDING, 3, 0⟩

def q4 : QueueDB := ⟨[⟨1, "/p1", .PENDING, 5, 0⟩, job4b, ⟨3, "/p3", .DONE, 1, 0⟩]⟩

/-- An empty view tree. -/
def absentView : String → FsEntry := fun _ => .absent

/-- A view tree holding a wrong symlink at the expected location and a
real file elsewhere. -/
def view7 : String → FsEntry := fun p =>
  if p = "/view/Artist/01.flac" then .symlinkTo "wrong"
  else if p = "/view/notes.txt" then .realFile
  else .absent

def urls2 : List String := ["http://a/hook", "http://b/hook"]

def failsA : String → Bool := fun u => u == "http://a/hook"

/-! ## Theorems -/

/-- C10: For every path that does not exist on the filesystem,
`process_path` is a no-op: the file walk yields no files, so no Track
or UnknownFile record is written, no event is emitted, and no error is
raised. -/
theorem c10_nonexistent_path_noop (fs : FS) (db : DB) (p : String)
    (h : fs.pathExists p = false) :
    process_path fs db p = ⟨db, [], true⟩ := by
  simp [process_path, recursive_path_walk, h, processFiles]

theorem c10_witness :
    absentFS.pathExists "/missing" = false ∧
    process_path absentFS emptyDB "/missing" = ⟨emptyDB, [], true⟩ :=
  ⟨rfl, c10_nonexistent_path_noop absentFS emptyDB "/missing" rfl⟩

/-- C8 counterexample: the job completion code performs no terminal-state
check at all.  From a job already `DONE`, `Queue.update_status` with the
other outcome silently overwrites the terminal status (it neither
rejects nor keeps `DONE`), and the worker-loop completion `job.status =
...` does not even touch `updated_at`. -/
theorem c8_counterexample :
    (update_status jobDone .FAILED 5).status = .FAILED ∧
    ¬ (update_status jobDone .FAILED 5).status = .DONE ∧
    (completeJob jobDone .DONE).updated_at = jobDone.updated_at := by
  decide

/-- C8 (amended): completing a job assigns its status unconditionally:
`Queue.update_status` sets the status and refreshes `updated_at`, while
the worker loop completes jobs by assigning the status directly and
leaves `updated_at` unchanged.  A repeated call with the same outcome
yields the same state as a single call; a call with a different outcome
after a terminal state silently overwrites the terminal status — nothing
is rejected or logged. -/
theorem c8_complete_overwrites (j : Job) (st st2 : JobStatus) (now now2 : Nat) :
    (update_status j st now).status = st ∧
    (update_status j st now).updated_at = now ∧
    update_status (update_status j st now) st now2 = update_status j st now2 ∧
    (update_status (update_status j st now) st2 now2).status = st2 ∧
    (completeJob j st).status = st ∧
    (completeJob j st).updated_at = j.updated_at :=
  ⟨rfl, rfl, rfl, rfl, rfl, rfl⟩

theorem data_repeatUp_succ (n : Nat) :
    (repeatUp (n + 1)).data = '.' :: '.' :: '/' :: (repeatUp n).data := by
  show ("../" ++ repeatUp n).data = _
  rw [String.data_append]
  rfl

theorem data_symlinkTarget (rel : List String) (sourceRel : String) :
    (symlinkTarget rel sourceRel).data
      = (repeatUp rel.dropLast.length).data
          ++ (sourceRel.data ++ ('/' :: (renderRel rel).data)) := by
  unfold symlinkTarget
  rw [String.data_append, String.data_append, String.data_append]
  simp [List.append_assoc]

theorem isAbsolutePath_symlinkTarget (rel : List String) (sourceRel : String)
    (hne : sourceRel.data ≠ []) (habs : isAbsolutePath sourceRel = false) :
    isAbsolutePath (symlinkTarget rel sourceRel) = false := by
  have hdata := data_symlinkTarget rel sourceRel
  cases hk : rel.dropLast.length with
  | zero =>
      rw [hk] at hdata
      cases hd : sourceRel.data with
      | nil => exact absurd hd hne
      | cons c cs =>
          rw [hd] at hdata
          unfold isAbsolutePath at habs ⊢
          rw [hd] at habs
          rw [hdata]
          simpa [repeatUp] using habs
  | succ n =>
      rw [hk, data_repeatUp_succ] at hdata
      unfold isAbsolutePath
      rw [hdata]
      simp

/-- C6: for a store path with relative location `rel` under the view
root, the symlink target computed by `_create_symlink` equals
`("../" × depth(rel)) + source_relative_path + "/" + rel` with
`depth(rel)` the number of directory components of the parent of `rel`;
provided the configured source-relative path is itself a nonempty
relative path, the target is never absolute; and when the expected
location is free, the reconciler creates exactly that symlink there. -/
theorem c6_symlink_target (rel : List String) (sourceRel : String)
    (view : String → FsEntry) (viewDir : String)
    (hne : sourceRel.data ≠ [])
    (habs : isAbsolutePath sourceRel = false)
    (hfree : view (linkPath viewDir rel) = .absent) :
    symlinkTarget rel sourceRel = specSymlinkTarget rel sourceRel ∧
    isAbsolutePath (symlinkTarget rel sourceRel) = false ∧
    create_symlink view viewDir rel sourceRel (linkPath viewDir rel)
      = .symlinkTo (symlinkTarget rel sourceRel) := by
  refine ⟨?_, isAbsolutePath_symlinkTarget rel sourceRel hne habs, ?_⟩
  · unfold symlinkTarget specSymlinkTarget
    rw [List.length_dropLast]
  · unfold create_symlink
    rw [hfree]
    simp

theorem c6_witness :
    symlinkTarget ["Artist", "01.flac"] "../source"
      = specSymlinkTarget ["Artist", "01.flac"] "../source" ∧
    isAbsolutePath (symlinkTarget ["Artist", "01.flac"] "../source") = false ∧
    create_symlink absentView "/view" ["Artist", "01.flac"] "../source"
        (linkPath "/view" ["Artist", "01.flac"])
      = .symlinkTo (symlinkTarget ["Artist", "01.flac"] "../source") :=
  c6_symlink_target ["Artist", "01.flac"] "../source" absentView "/view"
    (by decide) rfl rfl

/-- C7: the reconciler never deletes or overwrites a real (non-symlink)
file: wherever the view tree holds a real file the result still holds
that real file, and when the expected location itself is occupied by a
real file the whole view is returned untouched; moreover the only
location `_create_symlink` ever changes is the expected one, it only
changes it to the expected symlink, and only when it was absent or held
a symlink pointing elsewhere. -/
theorem c7_never_overwrite_real_file (view : String → FsEntry) (viewDir : String)
    (rel : List String) (sourceRel : String) :
    (∀ p, view p = .realFile → create_symlink view viewDir rel sourceRel p = .realFile) ∧
    (view (linkPath viewDir rel) = .realFile →
      create_symlink view viewDir rel sourceRel = view) ∧
    (∀ p, create_symlink view viewDir rel sourceRel p ≠ view p →
      p = linkPath viewDir rel ∧
      create_symlink view viewDir rel sourceRel p
        = .symlinkTo (symlinkTarget rel sourceRel) ∧
      (view p = .absent ∨
        ∃ t, view p = .symlinkTo t ∧ t ≠ symlinkTarget rel sourceRel)) := by
  cases hv : view (linkPath viewDir rel) with
  | symlinkTo cur =>
      unfold create_symlink
      simp only [hv]
      by_cases hc : cur = symlinkTarget rel sourceRel
      · rw [if_pos hc]
        refine ⟨fun p hp => hp, fun _ => rfl, fun p hne2 => absurd rfl hne2⟩
      · rw [if_neg hc]
        refine ⟨?_, ?_, ?_⟩
        · intro p hp
          by_cases hpl : p = linkPath viewDir rel
          · rw [hpl] at hp
            rw [hv] at hp
            cases hp
          · rw [if_neg hpl]
            exact hp
        · intro hreal
          cases hreal
        · intro p hne2
          by_cases hpl : p = linkPath viewDir rel
          · subst hpl
            exact ⟨rfl, by simp, Or.inr ⟨cur, hv, hc⟩⟩
          · rw [if_neg hpl] at hne2
            exact absurd rfl hne2
  | realFile =>
      unfold create_symlink
      simp only [hv]
      refine ⟨fun p hp => hp, by simp, fun p hne2 => absurd rfl hne2⟩
  | absent =>
      unfold create_symlink
      simp only [hv]
      refine ⟨?_, ?_, ?_⟩
      · intro p hp
        by_cases hpl : p = linkPath viewDir rel
        · rw [hpl] at hp
          rw [hv] at hp
          cases hp
        · rw [if_neg hpl]
          exact hp
      · intro hreal
        cases hreal
      · intro p hne2
        by_cases hpl : p = linkPath viewDir rel
        · subst hpl
          exact ⟨rfl, by simp, Or.inl hv⟩
        · rw [if_neg hpl] at hne2
          exact absurd rfl hne2

theorem c7_witness :
    create_symlink view7 "/view" ["Artist", "01.flac"] "../source" "/view/notes.txt"
      = .realFile ∧
    create_symlink view7 "/view" ["Artist", "01.flac"] "../source" "/view/Artist/01.flac"
      = .symlinkTo (symlinkTarget ["Artist", "01.flac"] "../source") := by
  have h := c7_never_overwrite_real_file view7 "/view" ["Artist", "01.flac"] "../source"
  exact ⟨h.1 "/view/notes.txt" rfl, (h.2.2 "/view/Artist/01.flac" (by decide)).2.1⟩

/-- C1 (code-bug exhibit): on the directory `/in` holding two audio
files where fingerprinting `a.flac` raises and `b.flac` is healthy, the
scan aborts: the run ends unsuccessfully with no record and no event
for either file — the remaining file of the scan is never processed —
although processing `b.flac` by itself would succeed.  The unguarded
`multiprocess_pool.apply(_audioprint_resampled, ...)` call lets the
exception escape the per-file loop. -/
theorem c1_fingerprint_failure_aborts_scan :
    process_path fpFailFS emptyDB "/in" = ⟨emptyDB, [], false⟩ ∧
    processFile fpFailFS emptyDB "/in/b.flac" ≠ none := by
  decide

theorem find?_isSome_eq_any {α : Type} (l : List α) (p : α → Bool) :
    (l.find? p).isSome = l.any p := by
  induction l with
  | nil => rfl
  | cons a r ih =>
      by_cases h : p a
      · simp [List.find?, h]
      · simp [List.find?, h, ih]

/-- C2 counterexample: with the store holding exactly one Track whose
identity tuple matches but which is flagged duplicate = true, the
spec's non-duplicate-restricted lookup finds nothing, yet the engine
inserts the new track with duplicate = true — so the flag is not
decided by a duplicate = false match. -/
theorem c2_counterexample :
    specLookupNonDuplicate dupOnlyDB 7 mfX = none ∧
    (process_path audioFS7 dupOnlyDB "/in/new.flac").db.tracks.map Track.duplicate
      = [true, true] := by
  decide

/-- C2 (amended): the existence lookup that decides the duplicate flag
matches among all existing Track records on exact equality of the
(fingerprint, album, album_id, disc, track) tuple — the query carries no
duplicate = false restriction — and the inserted Track has
duplicate = true iff such a match (itself possibly flagged duplicate)
was found. -/
theorem c2_lookup_ignores_duplicate_flag (fs : FS) (db : DB) (file : String)
    (mf : MediaTags) (fp : Int)
    (hnew : hasRecord db file = false)
    (haudio : (fs.info file).isAudio = true)
    (hmedia : (fs.info file).media = some mf)
    (hfp : (fs.info file).fingerprint = some fp) :
    (findExisting db fp mf).isSome = db.tracks.any (tupleMatch fp mf) ∧
    processFile fs db file = some
      ({ db with tracks := db.tracks ++
          [{ path := file, acoustic_fingerprint := fp, album := mf.album,
             mb_albumid := mf.mb_albumid, disc_number := mf.disc,
             track_number := mf.track,
             duplicate := (findExisting db fp mf).isSome }] },
        [.commitTrack
          { path := file, acoustic_fingerprint := fp, album := mf.album,
            mb_albumid := mf.mb_albumid, disc_number := mf.disc,
            track_number := mf.track, duplicate := (findExisting db fp mf).isSome },
         .notify (trackEvent file fp mf (findExisting db fp mf).isSome
           (fs.info file).metaOk)]) := by
  refine ⟨find?_isSome_eq_any _ _, ?_⟩
  simp [processFile, hnew, haudio, hmedia, hfp]

theorem c2_witness :
    (findExisting dupOnlyDB 7 mfX).isSome = dupOnlyDB.tracks.any (tupleMatch 7 mfX) ∧
    processFile audioFS7 dupOnlyDB "/in/new.flac" = some
      ({ dupOnlyDB with tracks := dupOnlyDB.tracks ++
          [{ path := "/in/new.flac", acoustic_fingerprint := 7, album := mfX.album,
             mb_albumid := mfX.mb_albumid, disc_number := mfX.disc,
             track_number := mfX.track,
             duplicate := (findExisting dupOnlyDB 7 mfX).isSome }] },
        [.commitTrack
          { path := "/in/new.flac", acoustic_fingerprint := 7, album := mfX.album,
            mb_albumid := mfX.mb_albumid, disc_number := mfX.disc,
            track_number := mfX.track, duplicate := (findExisting dupOnlyDB 7 mfX).isSome },
         .notify (trackEvent "/in/new.flac" 7 mfX (findExisting dupOnlyDB 7 mfX).isSome
           (audioFS7.info "/in/new.flac").metaOk)]) :=
  c2_lookup_ignores_duplicate_flag audioFS7 dupOnlyDB "/in/new.flac" mfX 7
    (by decide) rfl rfl rfl

/-- C5 counterexample: a file whose MIME classifies as audio but whose
MediaFile tag parsing raises FileTypeError is recorded as UnknownFile —
no Track is written and the file is never fingerprinted, although
fingerprinting it would have succeeded. -/
theorem c5_counterexample :
    (process_path ftErrFS emptyDB "/in/tagless.flac").db.tracks = [] ∧
    (process_path ftErrFS emptyDB "/in/tagless.flac").db.unknownFiles
      = [⟨"/in/tagless.flac"⟩] ∧
    (ftErrFS.info "/in/tagless.flac").fingerprint = some 7 := by
  decide

/-- C5 (amended): for a file classified as audio whose tag extraction
raises mediafile.FileTypeError, the engine does not fingerprint the
file: it records it as UnknownFile and emits an unknown event, exactly
as for a non-audio file, and writes no Track record for it. -/
theorem c5_metadata_failure_records_unknown (fs : FS) (db : DB) (file : String)
    (hnew : hasRecord db file = false)
    (haudio : (fs.info file).isAudio = true)
    (hmedia : (fs.info file).media = none) :
    processFile fs db file = some
      ({ db with unknownFiles := db.unknownFiles ++ [⟨file⟩] },
       [.commitUnknown ⟨file⟩, .notify (unknownEvent file)]) := by
  simp [processFile, hnew, haudio, hmedia]

theorem c5_witness :
    processFile ftErrFS emptyDB "/in/tagless.flac" = some
      ({ emptyDB with unknownFiles := emptyDB.unknownFiles ++ [⟨"/in/tagless.flac"⟩] },
       [.commitUnknown ⟨"/in/tagless.flac"⟩, .notify (unknownEvent "/in/tagless.flac")]) :=
  c5_metadata_failure_records_unknown ftErrFS emptyDB "/in/tagless.flac" (by decide) rfl rfl

/-- C9: whenever the per-file step processes a file without raising, its
trace is either empty (skip) or commits the Track or UnknownFile record
strictly before the single webhook notification for that file; and
`_send_webhook` attempts every configured target exactly once, a failing
target only producing a failed (logged) attempt without preventing the
attempts on the remaining targets or affecting the step's success. -/
theorem c9_commit_before_notify (fs : FS) (db : DB) (file : String) (db2 : DB)
    (acts : List Action) (fails : String → Bool) (urls : List String)
    (hstep : processFile fs db file = some (db2, acts)) :
    (acts = [] ∨ (∃ u ev, acts = [.commitUnknown u, .notify ev]) ∨
      (∃ t ev, acts = [.commitTrack t, .notify ev])) ∧
    (send_webhook fails urls).map WebhookAttempt.url = urls ∧
    (send_webhook fails urls).all (fun a => a.delivered == !(fails a.url)) = true := by
  refine ⟨?_, ?_, ?_⟩
  · unfold processFile at hstep
    split at hstep
    · simp only [Option.some.injEq, Prod.mk.injEq] at hstep
      exact Or.inl hstep.2.symm
    · split at hstep
      · simp only [Option.some.injEq, Prod.mk.injEq] at hstep
        exact Or.inr (Or.inl ⟨⟨file⟩, unknownEvent file, hstep.2.symm⟩)
      · split at hstep
        · simp only [Option.some.injEq, Prod.mk.injEq] at hstep
          exact Or.inr (Or.inl ⟨⟨file⟩, unknownEvent file, hstep.2.symm⟩)
        · split at hstep
          · cases hstep
          · simp only [Option.some.injEq, Prod.mk.injEq] at hstep
            exact Or.inr (Or.inr ⟨_, _, hstep.2.symm⟩)
  · simp [send_webhook, List.map_map, Function.comp_def]
  · simp [send_webhook, List.all_eq_true]

theorem c9_witness :
    (([Action.commitUnknown ⟨"/w9"⟩, Action.notify (unknownEvent "/w9")] : List Action)
        = [] ∨
      (∃ u ev, [Action.commitUnknown ⟨"/w9"⟩, Action.notify (unknownEvent "/w9")]
        = [Action.commitUnknown u, Action.notify ev]) ∨
      (∃ t ev, [Action.commitUnknown ⟨"/w9"⟩, Action.notify (unknownEvent "/w9")]
        = [Action.commitTrack t, Action.notify ev])) ∧
    (send_webhook failsA urls2).map WebhookAttempt.url = urls2 ∧
    send_webhook failsA urls2
      = [⟨"http://a/hook", false⟩, ⟨"http://b/hook", true⟩] := by
  have h := c9_commit_before_notify fs9 emptyDB "/w9"
    ⟨[], [⟨"/w9"⟩]⟩ [Action.commitUnknown ⟨"/w9"⟩, Action.notify (unknownEvent "/w9")]
    failsA urls2 (by decide)
  exact ⟨h.1, h.2.1, by decide⟩

theorem hasRecord_append_unknown (db : DB) (q f : String) (h : hasRecord db q = true) :
    hasRecord { db with unknownFiles := db.unknownFiles ++ [⟨f⟩] } q = true := by
  unfold hasRecord at h ⊢
  rcases Bool.or_eq_true_iff.mp h with h1 | h1 <;> simp [List.any_append, h1]

theorem hasRecord_append_track (db : DB) (q : String) (tr : Track)
    (h : hasRecord db q = true) :
    hasRecord { db with tracks := db.tracks ++ [tr] } q = true := by
  unfold hasRecord at h ⊢
  rcases Bool.or_eq_true_iff.mp h with h1 | h1 <;> simp [List.any_append, h1]

theorem hasRecord_mono_processFile {fs : FS} {db db2 : DB} {f q : String}
    {acts : List Action}
    (hstep : processFile fs db f = some (db2, acts)) (h : hasRecord db q = true) :
    hasRecord db2 q = true := by
  unfold processFile at hstep
  split at hstep
  · simp only [Option.some.injEq, Prod.mk.injEq] at hstep
    exact hstep.1 ▸ h
  · split at hstep
    · simp only [Option.some.injEq, Prod.mk.injEq] at hstep
      exact hstep.1 ▸ hasRecord_append_unknown db q f h
    · split at hstep
      · simp only [Option.some.injEq, Prod.mk.injEq] at hstep
        exact hstep.1 ▸ hasRecord_append_unknown db q f h
      · split at hstep
        · exact Option.noConfusion hstep
        · simp only [Option.some.injEq, Prod.mk.injEq] at hstep
          exact hstep.1 ▸ hasRecord_append_track db q _ h

theorem processFile_records {fs : FS} {db db2 : DB} {f : String} {acts : List Action}
    (hstep : processFile fs db f = some (db2, acts)) :
    hasRecord db2 f = true := by
  unfold processFile at hstep
  split at hstep
  case isTrue hh =>
    simp only [Option.some.injEq, Prod.mk.injEq] at hstep
    exact hstep.1 ▸ hh
  case isFalse hh =>
    split at hstep
    · simp only [Option.some.injEq, Prod.mk.injEq] at hstep
      refine hstep.1 ▸ ?_
      simp [hasRecord, List.any_append]
    · split at hstep
      · simp only [Option.some.injEq, Prod.mk.injEq] at hstep
        refine hstep.1 ▸ ?_
        simp [hasRecord, List.any_append]
      · split at hstep
        · exact Option.noConfusion hstep
        · simp only [Option.some.injEq, Prod.mk.injEq] at hstep
          refine hstep.1 ▸ ?_
          simp [hasRecord, List.any_append]

theorem hasRecord_mono_processFiles (fs : FS) {db : DB} {q : String} (l : List String)
    (h : hasRecord db q = true) :
    hasRecord (processFiles fs db l).db q = true := by
  induction l generalizing db with
  | nil => simpa [processFiles] using h
  | cons f rest ih =>
      unfold processFiles
      cases hstep : processFile fs db f with
      | none => simpa using h
      | some pr =>
          obtain ⟨db2, acts⟩ := pr
          exact ih (hasRecord_mono_processFile hstep h)

theorem processFile_skip {fs : FS} {db : DB} {f : String} (h : hasRecord db f = true) :
    processFile fs db f = some (db, []) := by
  unfold processFile
  rw [if_pos h]

theorem processFiles_cons_none {fs : FS} {db : DB} {f : String} {rest : List String}
    (h : processFile fs db f = none) :
    processFiles fs db (f :: rest) = ⟨db, [], false⟩ := by
  unfold processFiles
  rw [h]

theorem processFiles_cons_some {fs : FS} {db db2 : DB} {f : String} {rest : List String}
    {acts : List Action} (h : processFile fs db f = some (db2, acts)) :
    processFiles fs db (f :: rest)
      = ⟨(processFiles fs db2 rest).db, acts ++ (processFiles fs db2 rest).actions,
         (processFiles fs db2 rest).ok⟩ := by
  conv_lhs => rw [processFiles]
  rw [h]

/-- C3: `process_path` is idempotent: every file that already has a
Track or UnknownFile record is skipped with no new record and no event,
so re-running the same path over an unchanged tree from the state the
first run produced changes nothing — the store stays exactly as it was,
the action trace (commits and webhook notifications) of the second run
is empty, and the second run fares as the first did. -/
theorem c3_process_path_idempotent (fs : FS) (db : DB) (p : String) :
    process_path fs (process_path fs db p).db p
      = ⟨(process_path fs db p).db, [], (process_path fs db p).ok⟩ := by
  unfold process_path
  generalize recursive_path_walk fs p = l
  induction l generalizing db with
  | nil => rfl
  | cons f rest ih =>
      cases hstep : processFile fs db f with
      | none =>
          rw [processFiles_cons_none hstep]
          exact processFiles_cons_none hstep
      | some pr =>
          obtain ⟨db2, acts⟩ := pr
          rw [processFiles_cons_some hstep]
          have hrec : hasRecord (processFiles fs db2 rest).db f = true :=
            hasRecord_mono_processFiles fs rest (processFile_records hstep)
          rw [processFiles_cons_some (processFile_skip hrec)]
          rw [ih db2]
          simp

theorem minByCreated_eq_none {l : List Job} (h : minByCreated l = none) : l = [] := by
  cases l with
  | nil => rfl
  | cons a rest =>
      unfold minByCreated at h
      cases hm : minByCreated rest with
      | none =>
          rw [hm] at h
          exact Option.noConfusion h
      | some b =>
          rw [hm] at h
          dsimp only at h
          by_cases hle : a.created_at ≤ b.created_at
          · rw [if_pos hle] at h
            exact Option.noConfusion h
          · rw [if_neg hle] at h
            exact Option.noConfusion h

theorem minByCreated_mem {l : List Job} {j : Job} (h : minByCreated l = some j) :
    j ∈ l := by
  induction l generalizing j with
  | nil => exact Option.noConfusion h
  | cons a rest ih =>
      unfold minByCreated at h
      cases hm : minByCreated rest with
      | none =>
          rw [hm] at h
          dsimp only at h
          injection h with h2
          subst h2
          exact List.mem_cons_self _ _
      | some b =>
          rw [hm] at h
          dsimp only at h
          by_cases hle : a.created_at ≤ b.created_at
          · rw [if_pos hle] at h
            injection h with h2
            subst h2
            exact List.mem_cons_self _ _
          · rw [if_neg hle] at h
            injection h with h2
            subst h2
            exact List.mem_cons_of_mem a (ih hm)

theorem minByCreated_le {l : List Job} {j : Job} (h : minByCreated l = some j) :
    ∀ k ∈ l, j.created_at ≤ k.created_at := by
  induction l generalizing j with
  | nil =>
      intro k hk
      exact absurd hk (List.not_mem_nil k)
  | cons a rest ih =>
      intro k hk
      unfold minByCreated at h
      cases hm : minByCreated rest with
      | none =>
          rw [hm] at h
          dsimp only at h
          injection h with h2
          subst h2
          have hrest : rest = [] := minByCreated_eq_none hm
          subst hrest
          rcases List.mem_cons.mp hk with rfl | hk2
          · exact Nat.le_refl _
          · exact absurd hk2 (List.not_mem_nil k)
      | some b =>
          rw [hm] at h
          dsimp only at h
          by_cases hle : a.created_at ≤ b.created_at
          · rw [if_pos hle] at h
            injection h with h2
            subst h2
            rcases List.mem_cons.mp hk with rfl | hk2
            · exact Nat.le_refl _
            · exact Nat.le_trans hle (ih hm k hk2)
          · rw [if_neg hle] at h
            injection h with h2
            subst h2
            rcases List.mem_cons.mp hk with rfl | hk2
            · exact Nat.le_of_lt (Nat.lt_of_not_le hle)
            · exact ih hm k hk2

theorem selectOldestPending_spec {q : QueueDB} {j : Job}
    (h : selectOldestPending q = some j) :
    j ∈ q.jobs ∧ j.status = .PENDING ∧
      ∀ k ∈ q.jobs, k.status = .PENDING → j.created_at ≤ k.created_at := by
  have hmem := minByCreated_mem h
  have hf := List.mem_filter.mp hmem
  refine ⟨hf.1, by simpa using hf.2, ?_⟩
  intro k hk hkp
  exact minByCreated_le h k (List.mem_filter.mpr ⟨hk, by simp [hkp]⟩)

theorem filter_eq_singleton_of_unique {l : List Job} {p : Job → Bool} {j : Job}
    (hl : l.Nodup) (hmem : j ∈ l) (hp : p j = true)
    (huniq : ∀ k ∈ l, p k = true → k = j) :
    l.filter p = [j] := by
  induction l with
  | nil => exact absurd hmem (List.not_mem_nil j)
  | cons a rest ih =>
      rcases List.mem_cons.mp hmem with rfl | hmem2
      · rw [List.filter_cons_of_pos hp]
        have hrest : rest.filter p = [] := by
          refine List.filter_eq_nil_iff.mpr ?_
          intro k hk hpk
          have hkj := huniq k (List.mem_cons_of_mem _ hk) hpk
          subst hkj
          exact (List.nodup_cons.mp hl).1 hk
        rw [hrest]
      · have hpa : ¬ p a = true := by
          intro hpa
          have haj := huniq a (List.mem_cons_self a rest) hpa
          subst haj
          exact (List.nodup_cons.mp hl).1 hmem2
        rw [List.filter_cons_of_neg hpa]
        exact ih (List.nodup_cons.mp hl).2 hmem2
          (fun k hk hpk => huniq k (List.mem_cons_of_mem _ hk) hpk)

theorem claimUpdate_count_one {q : QueueDB} {jid : Nat} {j : Job}
    (hnd : (q.jobs.map Job.id).Nodup)
    (hmem : j ∈ q.jobs) (hid : j.id = jid) (hpend : j.status = .PENDING) :
    (claimUpdate q jid).1 = 1 := by
  have hnodup : q.jobs.Nodup := List.Nodup.of_map Job.id hnd
  have hhit : claimHit jid j = true := by simp [claimHit, hid, hpend]
  have huniq : ∀ k ∈ q.jobs, claimHit jid k = true → k = j := by
    intro k hk hkhit
    have hkid : k.id = jid := by
      have hsplit := (Bool.and_eq_true _ _).mp hkhit
      simpa [claimHit] using hsplit.1
    exact List.inj_on_of_nodup_map hnd hk hmem (by rw [hkid, hid])
  show (q.jobs.filter (claimHit jid)).length = 1
  rw [filter_eq_singleton_of_unique hnodup hmem hhit huniq]
  rfl

theorem claimUpdate_clears_hits (q : QueueDB) (jid : Nat) :
    ∀ k ∈ (claimUpdate q jid).2.jobs, claimHit jid k = false := by
  intro k hk
  have hk2 : k ∈ q.jobs.map
      (fun x => if claimHit jid x then { x with status := JobStatus.PROCESSING } else x) := hk
  rcases List.mem_map.mp hk2 with ⟨a, ha, rfl⟩
  by_cases h : claimHit jid a = true
  · rw [if_pos h]
    simp [claimHit]
  · rw [if_neg h]
    simp only [Bool.not_eq_true] at h
    exact h

theorem claimUpdate_of_no_hits {q : QueueDB} {jid : Nat}
    (h : ∀ k ∈ q.jobs, claimHit jid k = false) :
    claimUpdate q jid = (0, q) := by
  unfold claimUpdate
  have h1 : q.jobs.filter (claimHit jid) = [] :=
    List.filter_eq_nil_iff.mpr (fun k hk => by simp [h k hk])
  have hcg : ∀ x ∈ q.jobs,
      (if claimHit jid x then { x with status := JobStatus.PROCESSING } else x) = id x := by
    intro x hx
    rw [if_neg]
    · rfl
    · simp [h x hx]
  have h2 : q.jobs.map
      (fun x => if claimHit jid x then { x with status := JobStatus.PROCESSING } else x)
      = q.jobs := (List.map_congr_left hcg).trans (List.map_id q.jobs)
  rw [h1, h2]
  rfl

theorem claimAttempts_of_no_hits {q : QueueDB} {jid : Nat} (n : Nat)
    (h : ∀ k ∈ q.jobs, claimHit jid k = false) :
    claimAttempts q jid n = (List.replicate n 0, q) := by
  induction n with
  | zero => rfl
  | succ m ih =>
      show ((claimUpdate q jid).1 :: (claimAttempts (claimUpdate q jid).2 jid m).1,
        (claimAttempts (claimUpdate q jid).2 jid m).2) = _
      rw [claimUpdate_of_no_hits h]
      rw [ih]
      rfl

/-- C4: claiming a job is an atomic conditional transition: the worker
selection returns a Pending job minimal by created_at among the Pending
jobs; the single conditional update on a still-Pending job (with unique
job ids) reports exactly one affected row and flips it to Processing;
and over any number of further sequential claim attempts on the same
job, only the first succeeds — every other claimer observes zero rows
updated and must re-poll. -/
theorem c4_claim_exclusivity (q : QueueDB) (jid : Nat) (n : Nat) (j : Job)
    (hnd : (q.jobs.map Job.id).Nodup)
    (hmem : j ∈ q.jobs) (hid : j.id = jid) (hpend : j.status = .PENDING) :
    (∀ b, selectOldestPending q = some b →
      b ∈ q.jobs ∧ b.status = .PENDING ∧
        ∀ k ∈ q.jobs, k.status = .PENDING → b.created_at ≤ k.created_at) ∧
    (claimUpdate q jid).1 = 1 ∧
    (claimAttempts q jid (n + 1)).1 = 1 :: List.replicate n 0 := by
  refine ⟨fun b hb => selectOldestPending_spec hb,
    claimUpdate_count_one hnd hmem hid hpend, ?_⟩
  show (claimUpdate q jid).1 :: (claimAttempts (claimUpdate q jid).2 jid n).1
      = 1 :: List.replicate n 0
  rw [claimUpdate_count_one hnd hmem hid hpend,
    claimAttempts_of_no_hits n (claimUpdate_clears_hits q jid)]

theorem c4_witness :
    (claimUpdate q4 2).1 = 1 ∧
    (claimAttempts q4 2 (2 + 1)).1 = 1 :: List.replicate 2 0 := by
  have h := c4_claim_exclusivity q4 2 2 job4b (by decide) (by decide) rfl rfl
  exact ⟨h.2.1, h.2.2⟩

end Flaczkownia
